import Mathlib

/-!
Verification of the DAVE media-encryption core of the D++ voice client.

The definitions below are a shallow embedding of the C++ sources:

* `src/dpp/dave/cryptor_manager.cpp` — nonce wrapping, replay window, cipher
  generation management;
* `src/dpp/dave/decryptor.cpp` — passthrough window and the decrypt pipeline;
* `src/dpp/dave/encryptor.cpp` — key-ratchet installation and nonce stream;
* `src/dpp/discordvoiceclient.cpp` — privacy codes, the voice error handler and
  the one-second rate-limit loop.

Machine integers are modelled as `Nat` with explicit `% 2 ^ w` where the C++
types truncate.  `std::chrono::time_point` is modelled as `Option Nat`, where
`none` stands for `time_point::max()` (an unreachable upper bound) and
`some t` is a finite tick count.  Constants whose defining headers are not in
the tree are modelled from the specification and marked as such.
-/

namespace dpp

/-- Modelled from the spec: `RATCHET_GENERATION_SHIFT_BITS = 24` (spec §6,
Constants); the defining header of the dave subsystem is absent from the
sources. -/
def RATCHET_GENERATION_SHIFT_BITS : Nat := 24

/-- Modelled from the spec: generations wrap at `2 ^ 24` (spec §3,
WrappedGeneration); header absent from the sources. -/
def GENERATION_WRAP : Nat := 2 ^ RATCHET_GENERATION_SHIFT_BITS

/-- Modelled from the spec: `MAX_GENERATION_GAP = 250` (spec §6); header
absent from the sources. -/
def MAX_GENERATION_GAP : Nat := 250

/-- Modelled from the spec: `MAX_MISSING_NONCES = 50` (spec §6); header
absent from the sources. -/
def MAX_MISSING_NONCES : Nat := 50

/-- Modelled from the spec: `MAX_FRAMES_PER_SECOND = 50` (spec §6); header
absent from the sources. -/
def MAX_FRAMES_PER_SECOND : Nat := 50

/-- Modelled from the spec: `CIPHER_EXPIRY = 10 s` (spec §6); header absent
from the sources.  Expressed in seconds; the unit is irrelevant to the claims
proved below. -/
def CIPHER_EXPIRY : Nat := 10

/-- `2 ^ 32`: the modulus of the 32-bit `KeyGeneration` and
`truncated_sync_nonce` types (spec §3: `Generation: u32`, `TruncatedNonce
(u32)`). -/
def U32 : Nat := 2 ^ 32

/-- A `std::chrono` time point: `none` models `time_point::max()`. -/
abbrev TimePoint := Option Nat

/-- Strict `<` on time points, with `none` as the maximal element. -/
def tpLT : TimePoint → TimePoint → Bool
  | none, _ => false
  | some _, none => true
  | some x, some y => decide (x < y)

/-- `std::min` on time points. -/
def tpMin (a b : TimePoint) : TimePoint :=
  if tpLT a b then a else b

/-- `compute_wrapped_generation` (`cryptor_manager.cpp`, lines 38–45).  The
C++ return type `KeyGeneration` is a 32-bit unsigned integer, hence the final
reduction modulo `2 ^ 32`. -/
def compute_wrapped_generation (oldest generation : Nat) : Nat :=
  let remainder := oldest % GENERATION_WRAP
  let factor := oldest / GENERATION_WRAP + (if generation < remainder then 1 else 0)
  (factor * GENERATION_WRAP + generation) % U32

/-- The wrapped-generation formula exactly as the spec states it (spec §3,
WrappedGeneration), in unbounded integer arithmetic.  Used to compare the
source function against the spec's words. -/
def wrapped_generation_spec (oldest generation : Nat) : Nat :=
  (oldest / 2 ^ 24 + (if generation < oldest % 2 ^ 24 then 1 else 0)) * 2 ^ 24 + generation

/-- `compute_wrapped_big_nonce` (`cryptor_manager.cpp`, lines 47–53).  The
C++ computes in the 64-bit `big_nonce` type; the shifted generation is a
32-bit value, so the 64-bit computation never wraps and no reduction is
needed. -/
def compute_wrapped_big_nonce (generation nonce : Nat) : Nat :=
  let maskedNonce := nonce &&& ((1 <<< RATCHET_GENERATION_SHIFT_BITS) - 1)
  (generation <<< RATCHET_GENERATION_SHIFT_BITS) ||| maskedNonce

/-- State of one `aead_cipher_manager` (`cryptor_manager.h` is absent from
the sources; the fields are those listed in spec §3, CipherManager state, and
are exactly the ones read and written by `cryptor_manager.cpp`).  A cipher is
abstract: the map `cryptors` stores, per generation, only the expiry time of
the cipher materialised for it. -/
structure CipherManagerState where
  oldestGeneration : Nat
  newestGeneration : Nat
  ratchetCreation : Nat
  ratchetExpiry : TimePoint
  cryptors : List (Nat × TimePoint)
  newestProcessedNonce : Option Nat
  missingNonces : List Nat
deriving DecidableEq

/-- `aead_cipher_manager::can_process_nonce` (`cryptor_manager.cpp`, lines
63–72). -/
def can_process_nonce (st : CipherManagerState) (generation nonce : Nat) : Bool :=
  match st.newestProcessedNonce with
  | none => true
  | some newest =>
    let bigNonce := compute_wrapped_big_nonce generation nonce
    decide (bigNonce > newest) || st.missingNonces.contains bigNonce

/-- First half of `aead_cipher_manager::report_cipher_success`
(`cryptor_manager.cpp`, lines 115–142): the update of
`newestProcessedNonce` and of the `missingNonces` window. -/
def update_nonce_window (st : CipherManagerState) (bigNonce : Nat) : CipherManagerState :=
  match st.newestProcessedNonce with
  | none => { st with newestProcessedNonce := some bigNonce }
  | some newest =>
    if bigNonce > newest then
      let oldestMissingNonce :=
        if bigNonce > MAX_MISSING_NONCES then bigNonce - MAX_MISSING_NONCES else 0
      let pruned := st.missingNonces.dropWhile (fun n => decide (n < oldestMissingNonce))
      let missingRangeStart := max oldestMissingNonce (newest + 1)
      { st with
          missingNonces := pruned ++ List.range' missingRangeStart (bigNonce - missingRangeStart),
          newestProcessedNonce := some bigNonce }
    else
      { st with missingNonces := st.missingNonces.erase bigNonce }

/-- Second half of `aead_cipher_manager::report_cipher_success`
(`cryptor_manager.cpp`, lines 144–157): advance `newestGeneration` and clamp
the expiry of all older ciphers. -/
def update_generation_expiry (st : CipherManagerState) (now generation : Nat) :
    CipherManagerState :=
  if generation ≤ st.newestGeneration || (st.cryptors.find? (fun c => c.1 == generation)).isNone then
    st
  else
    { st with
        newestGeneration := generation,
        cryptors := st.cryptors.map (fun c =>
          if c.1 < generation then (c.1, tpMin c.2 (some (now + CIPHER_EXPIRY))) else c) }

/-- `aead_cipher_manager::report_cipher_success` (`cryptor_manager.cpp`,
lines 113–158). -/
def report_cipher_success (st : CipherManagerState) (now generation nonce : Nat) :
    CipherManagerState :=
  update_generation_expiry (update_nonce_window st (compute_wrapped_big_nonce generation nonce))
    now generation

/-- The advance loop at the end of `aead_cipher_manager::cleanup_expired_ciphers`
(`cryptor_manager.cpp`, lines 198–203): step `oldestGeneration` forward while
it is below `newestGeneration` and has no cipher (the deleted ratchet keys are
external state and are not modelled). -/
def advance_oldest (cryptors : List (Nat × TimePoint)) (oldest newest : Nat) : Nat :=
  if h : oldest < newest ∧ (cryptors.find? (fun c => c.1 == oldest)).isNone then
    advance_oldest cryptors (oldest + 1) newest
  else
    oldest
termination_by newest - oldest
decreasing_by
  omega

/-- `aead_cipher_manager::cleanup_expired_ciphers` (`cryptor_manager.cpp`,
lines 185–204): drop every cipher whose expiry lies strictly in the past,
then advance `oldestGeneration`. -/
def cleanup_expired_ciphers (st : CipherManagerState) (now : Nat) : CipherManagerState :=
  let remaining := st.cryptors.filter (fun c => !(tpLT c.2 (some now)))
  { st with
      cryptors := remaining,
      oldestGeneration := advance_oldest remaining st.oldestGeneration st.newestGeneration }

/-- The expiry chosen by `aead_cipher_manager::make_expiring_cipher`
(`cryptor_manager.cpp`, lines 165–183): infinite for the newest generation,
`now + CIPHER_EXPIRY` for an old one. -/
def make_expiring_cipher_expiry (st : CipherManagerState) (now generation : Nat) : TimePoint :=
  if generation < st.newestGeneration then some (now + CIPHER_EXPIRY) else none

/-- `aead_cipher_manager::get_cipher` (`cryptor_manager.cpp`, lines 74–111).
A returned cipher is abstract and represented by its generation; `none` is
the `nullptr` result.  The addition `newestGeneration + MAX_GENERATION_GAP`
is performed in the 32-bit `KeyGeneration` type, hence the `% U32`.  Cipher
creation itself (`create_cipher`) is modelled from the spec as always
succeeding (spec §4.2: on pass, materialise and insert). -/
def get_cipher (st : CipherManagerState) (now generation : Nat) :
    Option Nat × CipherManagerState :=
  let st := cleanup_expired_ciphers st now
  if generation < st.oldestGeneration then
    (none, st)
  else if generation > (st.newestGeneration + MAX_GENERATION_GAP) % U32 then
    (none, st)
  else
    let ratchetLifetimeSec := now - st.ratchetCreation
    let maxLifetimeFrames := MAX_FRAMES_PER_SECOND * ratchetLifetimeSec
    let maxLifetimeGenerations := maxLifetimeFrames >>> RATCHET_GENERATION_SHIFT_BITS
    if generation > maxLifetimeGenerations then
      (none, st)
    else
      match st.cryptors.find? (fun c => c.1 == generation) with
      | some _ => (some generation, st)
      | none =>
        (some generation,
         { st with cryptors :=
             st.cryptors ++ [(generation, make_expiring_cipher_expiry st now generation)] })

/-- `aead_cipher_manager::is_expired`.  Modelled from the spec:
`is_expired(now)` compares `now` against `ratchet_expiry_time` (spec §4.2);
the declaring header is absent from the sources. -/
def cipher_manager_is_expired (st : CipherManagerState) (now : Nat) : Bool :=
  tpLT st.ratchetExpiry (some now)

/-- `aead_cipher_manager::update_expiry`.  Modelled from the spec:
`update_expiry(deadline)` clamps `ratchet_expiry` to `min(current, deadline)`
(spec §4.2); the declaring header is absent from the sources. -/
def update_cipher_manager_expiry (st : CipherManagerState) (expiryTime : Nat) :
    CipherManagerState :=
  { st with ratchetExpiry := tpMin st.ratchetExpiry (some expiryTime) }

/-! ## Decryptor (`src/dpp/dave/decryptor.cpp`) -/

/-- Per-media-type decrypt statistics of the decryptor (the fields of
`stats_[mediaType]` read and written in `decryptor.cpp`; timing counters are
omitted). -/
structure DecryptStats where
  passthroughCount : Nat
  decryptSuccessCount : Nat
  decryptFailureCount : Nat
  decryptAttempts : Nat
deriving DecidableEq

/-- Decryptor state (spec §3, Decryptor state): the ordered queue of cipher
managers (oldest at the head), the passthrough deadline, and per-media
statistics indexed by the numeric media type (`media_audio = 0`,
`media_video = 1`). -/
structure DecryptorState where
  allowPassThroughUntil : TimePoint
  cryptorManagers : List CipherManagerState
  stats : Nat → DecryptStats

/-- Modelled from the spec: the canonical Opus silence packet
`0xF8 0xFF 0xFE` (spec §4.5, §8 scenario); the header declaring
`kOpusSilencePacket` is absent from the sources. -/
def kOpusSilencePacket : List Nat := [0xF8, 0xFF, 0xFE]

/-- Modelled from the spec: the outcome of
`InboundFrameProcessor::ParseFrame` (spec §4.3); `frame_processors.cpp` is
absent from the sources, so the parse outcome is an abstract input to
`decrypt`: whether the frame carried the magic marker, the LEB128 truncated
nonce, and the frame reconstructed from unencrypted bytes and plaintext. -/
structure ParsedFrame where
  isEncrypted : Bool
  truncatedNonce : Nat
  reconstructed : List Nat

/-- `decryptor::TransitionToPassthroughMode` (`decryptor.cpp`, lines 55–65). -/
def TransitionToPassthroughMode (st : DecryptorState) (passthroughMode : Bool)
    (now transitionExpiry : Nat) : DecryptorState :=
  if passthroughMode then
    { st with allowPassThroughUntil := none }
  else
    let maxExpiry := tpMin st.allowPassThroughUntil (some (now + transitionExpiry))
    { st with allowPassThroughUntil := maxExpiry }

/-- `decryptor::UpdateCryptorManagerExpiry` (`decryptor.cpp`, lines 210–216). -/
def UpdateCryptorManagerExpiry (mgrs : List CipherManagerState) (now expiry : Nat) :
    List CipherManagerState :=
  mgrs.map (fun m => update_cipher_manager_expiry m (now + expiry))

/-- `decryptor::CleanupExpiredCryptorManagers` (`decryptor.cpp`, lines
218–224): pop expired managers from the front of the queue. -/
def CleanupExpiredCryptorManagers (mgrs : List CipherManagerState) (now : Nat) :
    List CipherManagerState :=
  mgrs.dropWhile (fun m => cipher_manager_is_expired m now)

/-- `decryptor::DecryptImpl` (`decryptor.cpp`, lines 158–203).  The AEAD
primitive is external (OpenSSL); its verdict for this manager is the abstract
input `aeadOk`.  Returns the success flag, the number of AEAD attempts made
(`0` or `1`, the increment of `decryptAttempts`), and the updated manager. -/
def DecryptImpl (mgr : CipherManagerState) (now truncatedNonce : Nat) (aeadOk : Bool) :
    Bool × Nat × CipherManagerState :=
  let generation :=
    compute_wrapped_generation mgr.oldestGeneration
      (truncatedNonce >>> RATCHET_GENERATION_SHIFT_BITS)
  if !(can_process_nonce mgr generation truncatedNonce) then
    (false, 0, mgr)
  else
    match get_cipher mgr now generation with
    | (none, mgr') => (false, 0, mgr')
    | (some _, mgr') =>
      if aeadOk then
        (true, 1, report_cipher_success mgr' now generation truncatedNonce)
      else
        (false, 1, mgr')

/-- The manager loop of `decryptor::decrypt` (`decryptor.cpp`, lines
120–127), acting on the REVERSED manager list (newest first) and stopping at
the first success.  `aeadOk k` is the external AEAD verdict for the `k`-th
manager tried. -/
def try_cryptor_managers (now nonce : Nat) (aeadOk : Nat → Bool) :
    Nat → List CipherManagerState → Bool × Nat × List CipherManagerState
  | _, [] => (false, 0, [])
  | k, m :: rest =>
    let r := DecryptImpl m now nonce (aeadOk k)
    if r.1 then
      (true, r.2.1, r.2.2 :: rest)
    else
      let rest' := try_cryptor_managers now nonce aeadOk (k + 1) rest
      (rest'.1, r.2.1 + rest'.2.1, r.2.2 :: rest'.2.2)

/-- Point update of the per-media statistics array. -/
def bumpStat (stats : Nat → DecryptStats) (mt : Nat) (f : DecryptStats → DecryptStats) :
    Nat → DecryptStats :=
  Function.update stats mt (f (stats mt))

/-- `decryptor::decrypt` (`decryptor.cpp`, lines 67–156).  The result is the
pair (bytes written, bytes placed in the output buffer — `none` when nothing
is written) together with the updated decryptor state.  `now` is the value of
`clock_.now()` at entry, `parsed` the outcome of the (external) frame parser,
and `aeadOk` the external AEAD verdict per manager tried. -/
def decrypt (st : DecryptorState) (mediaType : Nat) (encryptedFrame : List Nat)
    (parsed : ParsedFrame) (now : Nat) (aeadOk : Nat → Bool) :
    (Nat × Option (List Nat)) × DecryptorState :=
  if mediaType ≠ 0 ∧ mediaType ≠ 1 then
    ((0, none), st)
  else if mediaType = 0 ∧ encryptedFrame = kOpusSilencePacket then
    ((encryptedFrame.length, some encryptedFrame), st)
  else
    let st := { st with cryptorManagers := CleanupExpiredCryptorManagers st.cryptorManagers now }
    let canUsePassThrough := tpLT (some now) st.allowPassThroughUntil
    let bumpPass := bumpStat st.stats mediaType
      (fun s => { s with passthroughCount := s.passthroughCount + 1 })
    let bumpFail := bumpStat st.stats mediaType
      (fun s => { s with decryptFailureCount := s.decryptFailureCount + 1 })
    if !parsed.isEncrypted && canUsePassThrough then
      ((encryptedFrame.length, some encryptedFrame), { st with stats := bumpPass })
    else if !parsed.isEncrypted then
      ((0, none), { st with stats := bumpFail })
    else
      let r := try_cryptor_managers now parsed.truncatedNonce aeadOk 0 st.cryptorManagers.reverse
      let statsAtt := bumpStat st.stats mediaType
        (fun s => { s with decryptAttempts := s.decryptAttempts + r.2.1 })
      let st := { st with cryptorManagers := r.2.2.reverse, stats := statsAtt }
      let bumpOk := bumpStat st.stats mediaType
        (fun s => { s with decryptSuccessCount := s.decryptSuccessCount + 1 })
      let bumpFail2 := bumpStat st.stats mediaType
        (fun s => { s with decryptFailureCount := s.decryptFailureCount + 1 })
      if r.1 then
        ((parsed.reconstructed.length, some parsed.reconstructed), { st with stats := bumpOk })
      else
        ((0, none), { st with stats := bumpFail2 })

/-! ## Encryptor (`src/dpp/dave/encryptor.cpp`) -/

/-- Encryptor key/nonce state: the fields guarded by `keyGenMutex_` in
`encryptor.cpp` (spec §3, Encryptor state).  The cached cipher `cryptor_` is
abstract and represented by the generation it was created for (`none` =
`nullptr`). -/
structure EncryptorState where
  hasKeyRatchet : Bool
  currentKeyGeneration : Nat
  truncatedNonce : Nat
  cachedCipherGeneration : Option Nat
deriving DecidableEq

/-- `Encryptor::SetKeyRatchet` (`encryptor.cpp`, lines 19–26):
`ratchetPresent` tells whether the installed `unique_ptr` is non-null. -/
def SetKeyRatchet (st : EncryptorState) (ratchetPresent : Bool) : EncryptorState :=
  { st with
      hasKeyRatchet := ratchetPresent,
      cachedCipherGeneration := none,
      currentKeyGeneration := 0,
      truncatedNonce := 0 }

/-- `Encryptor::GetNextCryptorAndNonce` (`encryptor.cpp`, lines 258–276).
`++truncatedNonce_` increments the 32-bit counter (with wraparound) before
use.  The returned cipher is abstract, represented by its generation. -/
def GetNextCryptorAndNonce (st : EncryptorState) : (Option Nat × Nat) × EncryptorState :=
  if !st.hasKeyRatchet then
    ((none, 0), st)
  else
    let nonce := (st.truncatedNonce + 1) % U32
    let generation :=
      compute_wrapped_generation st.currentKeyGeneration
        (nonce >>> RATCHET_GENERATION_SHIFT_BITS)
    if generation != st.currentKeyGeneration || st.cachedCipherGeneration.isNone then
      ((some generation, nonce),
       { st with
           truncatedNonce := nonce,
           currentKeyGeneration := generation,
           cachedCipherGeneration := some generation })
    else
      ((st.cachedCipherGeneration, nonce), { st with truncatedNonce := nonce })

/-- The encryptor state after `k` encryption attempts (each attempt of
`Encryptor::Encrypt`'s retry loop, lines 102–118, calls
`GetNextCryptorAndNonce` exactly once). -/
def encryptor_iterate (st : EncryptorState) : Nat → EncryptorState
  | 0 => st
  | k + 1 => (GetNextCryptorAndNonce (encryptor_iterate st k)).2

/-- The truncated nonce used by attempt `k` (0-based): the nonce returned by
the `k + 1`-st call to `GetNextCryptorAndNonce`. -/
def nonce_of_attempt (st : EncryptorState) (k : Nat) : Nat :=
  (GetNextCryptorAndNonce (encryptor_iterate st k)).1.2

/-! ## Voice client (`src/dpp/discordvoiceclient.cpp`) -/

/-- An ASCII decimal digit character. -/
def decChar (d : Nat) : Char := Char.ofNat (48 + d)

/-- Worker for `decimalChars`, structurally recursive on a fuel bound (the
fuel is a Lean artifact: `n + 1` units always suffice, since a number has
fewer digits than successor). -/
def decimalCharsAux (fuel : Nat) (n : Nat) : List Char :=
  match fuel with
  | 0 => []
  | fuel + 1 =>
    if n < 10 then [decChar n] else decimalCharsAux fuel (n / 10) ++ [decChar (n % 10)]

/-- Decimal digit characters of `n`, most significant first.  Models
`std::to_string` applied to an unsigned value. -/
def decimalChars (n : Nat) : List Char :=
  decimalCharsAux (n + 1) n

/-- Left zero-padding to width `w`: models
`stream << std::setw(w) << std::setfill(0x30) << s`. -/
def zeroPad (w : Nat) (s : List Char) : List Char :=
  List.replicate (w - s.length) '0' ++ s

/-- The inner byte loop of `generate_displayable_code`
(`discordvoiceclient.cpp`, lines 202–206): starting at index `i`, fold `k`
bytes via `group_value = (group_value << 8) | next_byte`; `none` models the
`std::out_of_range` exception thrown by `data.at`. -/
def accumulate_group (data : List Nat) : Nat → Nat → Nat → Option Nat
  | _, 0, acc => some acc
  | i, k + 1, acc =>
    match data[i]? with
    | none => none
    | some b => accumulate_group data (i + 1) k ((acc <<< 8) ||| b)

/-- `generate_displayable_code` (`discordvoiceclient.cpp`, lines 194–211).
One group is emitted per loop iteration (`i = 0, groupSize, …` while
`i < desiredLength`), each group rendered zero-padded to `groupSize` digits
and followed by a space; `group_modulus` is `10 ^ groupSize`. -/
def generate_displayable_code (data : List Nat) (desiredLength : Nat)
    (groupSize : Nat := 5) : Option String :=
  let numGroups := (desiredLength + groupSize - 1) / groupSize
  ((List.range numGroups).mapM (fun g =>
      (accumulate_group data (g * groupSize) groupSize 0).map
        (fun v => zeroPad groupSize (decimalChars (v % 10 ^ groupSize)) ++ [' ']))).map
    (fun groups => String.mk groups.flatten)

/-- Big-endian value of a byte chunk, as the spec words it ("interpreting
each group as a big-endian unsigned integer", spec §4.6).  Spec-side
definition, used to compare `generate_displayable_code` against the spec. -/
def be_bytes_value (bytes : List Nat) : Nat :=
  bytes.foldl (fun a b => a * 256 + b) 0

/-- Spec-side privacy-code groups (claim C6 / spec §4.6): consecutive groups
of 5 bytes, each interpreted big-endian, reduced mod `10 ^ 5` and printed as
a zero-padded 5-digit decimal number. -/
def privacy_code_spec (data : List Nat) (groups : Nat) : List (List Char) :=
  (List.range groups).map (fun g =>
    zeroPad 5 (decimalChars (be_bytes_value ((data.drop (5 * g)).take 5) % 10 ^ 5)))

/-- The value passed to the callback by the fingerprint branch of
`discord_voice_client::get_user_privacy_code` (`discordvoiceclient.cpp`,
lines 541–550): a 45-digit displayable code when the pairwise fingerprint has
exactly 64 bytes, the empty string otherwise.  (`generate_displayable_code`
never throws there — 64 ≥ 45 bytes — so the `getD` default is inert.) -/
def get_user_privacy_code_result (data : List Nat) : String :=
  if data.length = 64 then (generate_displayable_code data 45).getD "" else ""

/-- One queued outbound packet of the voice session (`voice_out_packet`). -/
structure VoiceOutPacket where
  packet : String
  duration : Nat

/-- The voice-session state touched by `discord_voice_client::error` and
`stop_audio` (`discordvoiceclient.cpp`). -/
structure VoiceSessionState where
  outbuf : List VoiceOutPacket
  trackMeta : List String
  tracks : Nat
  terminating : Bool

/-- `discord_voice_client::stop_audio` (`discordvoiceclient.cpp`, lines
950–956): clear the output buffer, track metadata and track count. -/
def stop_audio (st : VoiceSessionState) : VoiceSessionState :=
  { st with outbuf := [], trackMeta := [], tracks := 0 }

/-- The tail of `discord_voice_client::error` (`discordvoiceclient.cpp`,
lines 1274–1279): for every error code `≥ 4003` the session stops audio and
sets the terminating flag; there is no exemption for any code. -/
def voice_client_error (st : VoiceSessionState) (errorcode : Nat) : VoiceSessionState :=
  if errorcode ≥ 4003 then
    { stop_audio st with terminating := true }
  else
    st

/-- The dequeue loop of the rate limiter: pop and write the front message, up
to `n` times, skipping iterations on an empty queue.  Returns the written
messages (in order) and the remaining queue. -/
def write_queue_loop : List String → Nat → List String × List String
  | q, 0 => ([], q)
  | [], _ + 1 => ([], [])
  | m :: q, n + 1 =>
    let r := write_queue_loop q n
    (m :: r.1, r.2)

/-- The outbound rate-limit loop of `discord_voice_client::one_second_timer`
(`discordvoiceclient.cpp`, lines 1362–1371) while connected: iterate
`(t % 2) + 1` times where `t` is `time(nullptr)` (sampled once here; the loop
condition re-reads the clock, which only matters if the tick straddles a
second boundary). -/
def one_second_timer_writes (t : Nat) (queue : List String) : List String × List String :=
  write_queue_loop queue (t % 2 + 1)

/-- The missing-nonce window invariant maintained by `report_cipher_success`
(claim C3): the window is strictly increasing, and every entry lies in
`[newest - MAX_MISSING_NONCES, newest)` where `newest` is the newest
processed BigNonce; with no processed nonce the window is empty. -/
def missing_nonce_invariant (st : CipherManagerState) : Prop :=
  match st.newestProcessedNonce with
  | none => st.missingNonces = []
  | some nn =>
    List.Pairwise (· < ·) st.missingNonces ∧
    ∀ x ∈ st.missingNonces, nn - MAX_MISSING_NONCES ≤ x ∧ x < nn

/-! ## Theorems -/

/-- C4 counterexample: at `oldest = 0xFF000001`, `gen = 0` the exact value of
the spec formula is `2 ^ 32`, which the 32-bit `KeyGeneration` return type
truncates to `0`. -/
theorem compute_wrapped_generation_not_exact :
    compute_wrapped_generation 4278190081 0 ≠ wrapped_generation_spec 4278190081 0 := by
  decide

/-- C4 (amended): `compute_wrapped_generation` equals the spec's
wrapped-generation formula reduced modulo `2 ^ 32`, the modulus of the
32-bit `KeyGeneration` type. -/
theorem compute_wrapped_generation_mod_u32 (oldest generation : Nat) :
    compute_wrapped_generation oldest generation
      = wrapped_generation_spec oldest generation % U32 :=
  rfl

/-- C7: evaluating `discord_voice_client::error` at the failing input `4014`:
the code clears the audio state and sets `terminating` for EVERY code
`≥ 4003`, including `4014`, contradicting its own comment ("Errors
4004...4016 except 4014 are fatal") and the spec (4014 should reconnect, not
terminate). -/
theorem voice_client_error_4014_terminates (st : VoiceSessionState) :
    (voice_client_error st 4014).terminating = true ∧
    (voice_client_error st 4014).outbuf = [] ∧
    (voice_client_error st 4014).trackMeta = [] ∧
    (voice_client_error st 4014).tracks = 0 ∧
    (∀ e, 4003 ≤ e → (voice_client_error st e).terminating = true ∧
      (voice_client_error st e).outbuf = []) := by
  refine ⟨rfl, rfl, rfl, rfl, fun e he => ?_⟩
  simp [voice_client_error, stop_audio, show e ≥ 4003 from he]

/-- C7 witness: the general conjunct applied at error code 4009. -/
theorem voice_client_error_4014_terminates_witness :
    4003 ≤ 4009 ∧
    (voice_client_error ⟨[⟨"x", 20⟩], ["m"], 1, false⟩ 4009).terminating = true := by
  exact ⟨by decide, ((voice_client_error_4014_terminates ⟨[⟨"x", 20⟩], ["m"], 1, false⟩).2.2.2.2
    4009 (by decide)).1⟩

/-- C8: evaluating the rate-limit loop of `one_second_timer`: with three
queued messages it writes 2 messages when the wall-clock second is ODD
(`t = 1001`) and 1 when it is EVEN (`t = 1000`) — the opposite of the code's
own comment ("1 every odd second, 2 every even second") and of the claim. -/
theorem one_second_timer_writes_inverted :
    ((one_second_timer_writes 1001 ["a", "b", "c"]).1.length = 2) ∧
    ((one_second_timer_writes 1000 ["a", "b", "c"]).1.length = 1) := by
  decide

/-- C10: `decryptor::decrypt` on a media type other than audio (0) and video
(1) returns 0 bytes, writes nothing, and leaves the whole decryptor state —
cipher managers, passthrough deadline, statistics — untouched. -/
theorem decrypt_invalid_media_type_noop (st : DecryptorState) (mediaType : Nat)
    (frame : List Nat) (parsed : ParsedFrame) (now : Nat) (aeadOk : Nat → Bool)
    (h0 : mediaType ≠ 0) (h1 : mediaType ≠ 1) :
    decrypt st mediaType frame parsed now aeadOk = ((0, none), st) := by
  simp [decrypt, h0, h1]

/-- C10 witness: media type 2 at a concrete state. -/
theorem decrypt_invalid_media_type_noop_witness :
    (2 ≠ 0) ∧ (2 ≠ 1) ∧
    decrypt ⟨some 5, [], fun _ => ⟨0, 0, 0, 0⟩⟩ 2 [1, 2, 3] ⟨true, 7, [9]⟩ 3 (fun _ => true)
      = ((0, none), ⟨some 5, [], fun _ => ⟨0, 0, 0, 0⟩⟩) :=
  ⟨by decide, by decide,
    decrypt_invalid_media_type_noop _ 2 _ _ _ _ (by decide) (by decide)⟩

/-- Auxiliary for C9: after `SetKeyRatchet`, `k` attempts leave the 32-bit
truncated nonce counter at `k % 2 ^ 32`, and the ratchet stays installed. -/
theorem encryptor_iterate_nonce (st : EncryptorState) (h : st.hasKeyRatchet = true)
    (h0 : st.truncatedNonce = 0) (k : Nat) :
    (encryptor_iterate st k).truncatedNonce = k % U32 ∧
    (encryptor_iterate st k).hasKeyRatchet = true := by
  induction k with
  | zero =>
    simp [encryptor_iterate, h0, h]
  | succ k ih =>
    obtain ⟨hn, hr⟩ := ih
    unfold encryptor_iterate
    simp only [GetNextCryptorAndNonce, hr, Bool.not_true, Bool.false_eq_true, if_false]
    split
    · simp [hn, Nat.mod_add_mod]
    · simp [hn, Nat.mod_add_mod]

/-- Auxiliary for C9: attempt `k` (0-based) uses truncated nonce
`(k + 1) % 2 ^ 32`. -/
theorem nonce_of_attempt_eq (st : EncryptorState) (h : st.hasKeyRatchet = true)
    (h0 : st.truncatedNonce = 0) (k : Nat) :
    nonce_of_attempt st k = (k + 1) % U32 := by
  obtain ⟨hn, hr⟩ := encryptor_iterate_nonce st h h0 k
  unfold nonce_of_attempt
  simp only [GetNextCryptorAndNonce, hr, Bool.not_true, Bool.false_eq_true, if_false]
  split
  · simp [hn, Nat.mod_add_mod]
  · simp [hn, Nat.mod_add_mod]

/-- C9: `SetKeyRatchet` resets the key generation, the truncated nonce and
the cached cipher; the first attempt after installation uses truncated nonce
1 under generation 0; attempt `k` uses nonce `k + 1` as long as the 32-bit
counter has not wrapped, so nonces of distinct attempts before the wrap are
strictly increasing and never repeat. -/
theorem encryptor_nonce_stream (st : EncryptorState) :
    ((SetKeyRatchet st true).currentKeyGeneration = 0 ∧
     (SetKeyRatchet st true).truncatedNonce = 0 ∧
     (SetKeyRatchet st true).cachedCipherGeneration = none) ∧
    (GetNextCryptorAndNonce (SetKeyRatchet st true)).1 = (some 0, 1) ∧
    (∀ k, k + 1 < U32 → nonce_of_attempt (SetKeyRatchet st true) k = k + 1) ∧
    (∀ i j, i < j → j + 1 < U32 →
      nonce_of_attempt (SetKeyRatchet st true) i < nonce_of_attempt (SetKeyRatchet st true) j) := by
  have hbase : (SetKeyRatchet st true).hasKeyRatchet = true := rfl
  have hzero : (SetKeyRatchet st true).truncatedNonce = 0 := rfl
  have hset : SetKeyRatchet st true = ⟨true, 0, 0, none⟩ := rfl
  refine ⟨⟨rfl, rfl, rfl⟩, ?_, fun k hk => ?_, fun i j hij hj => ?_⟩
  · rw [hset]
    rfl
  · rw [nonce_of_attempt_eq _ hbase hzero, Nat.mod_eq_of_lt hk]
  · rw [nonce_of_attempt_eq _ hbase hzero, nonce_of_attempt_eq _ hbase hzero,
      Nat.mod_eq_of_lt hj, Nat.mod_eq_of_lt (by omega)]
    omega

/-- C9 witness: attempts 2 and 7 from a freshly installed ratchet. -/
theorem encryptor_nonce_stream_witness :
    (3 < U32 ∧ nonce_of_attempt (SetKeyRatchet ⟨false, 9, 77, some 4⟩ true) 2 = 3) ∧
    (2 < 6 ∧ 7 < U32 ∧
      nonce_of_attempt (SetKeyRatchet ⟨false, 9, 77, some 4⟩ true) 2
        < nonce_of_attempt (SetKeyRatchet ⟨false, 9, 77, some 4⟩ true) 6) :=
  ⟨⟨by decide, (encryptor_nonce_stream ⟨false, 9, 77, some 4⟩).2.2.1 2 (by decide)⟩,
   ⟨by decide, by decide,
    (encryptor_nonce_stream ⟨false, 9, 77, some 4⟩).2.2.2 2 6 (by decide) (by decide)⟩⟩

/-- C1: replay protection of `can_process_nonce`.  With no processed nonce it
always accepts; otherwise it accepts exactly the nonces whose wrapped
BigNonce is strictly above `newestProcessedNonce` or sits in
`missingNonces`; under the window invariant (every missing nonce is below the
newest processed one) a BigNonce equal to `newestProcessedNonce` is
rejected. -/
theorem can_process_nonce_replay_protection (st : CipherManagerState) (g n : Nat)
    (hinv : ∀ x ∈ st.missingNonces, ∀ newest, st.newestProcessedNonce = some newest → x < newest) :
    (st.newestProcessedNonce = none → can_process_nonce st g n = true) ∧
    (∀ newest, st.newestProcessedNonce = some newest →
      (can_process_nonce st g n = true ↔
        newest < compute_wrapped_big_nonce g n ∨
          compute_wrapped_big_nonce g n ∈ st.missingNonces)) ∧
    (∀ newest, st.newestProcessedNonce = some newest →
      compute_wrapped_big_nonce g n = newest → can_process_nonce st g n = false) := by
  refine ⟨fun h => by simp [can_process_nonce, h], fun newest h => ?_, fun newest h heq => ?_⟩
  · simp [can_process_nonce, h, List.contains]
  · have hx : compute_wrapped_big_nonce g n ∉ st.missingNonces := fun hm => by
      have := hinv _ hm newest h
      omega
    subst heq
    simp [can_process_nonce, h, List.contains, hx]

/-- C1 witness: a concrete state with `newestProcessedNonce = some big` for
the nonce `(0, 5)` whose BigNonce is 5. -/
theorem can_process_nonce_replay_protection_witness :
    ((∀ x ∈ [3], ∀ newest, (some 5 : Option Nat) = some newest → x < newest) ∧
      compute_wrapped_big_nonce 0 5 = 5) ∧
    can_process_nonce ⟨0, 0, 0, none, [], some 5, [3]⟩ 0 5 = false := by
  have hinv : ∀ x ∈ [3], ∀ newest, (some 5 : Option Nat) = some newest → x < newest := by
    simp
  refine ⟨⟨hinv, by decide⟩, ?_⟩
  exact (can_process_nonce_replay_protection ⟨0, 0, 0, none, [], some 5, [3]⟩ 0 5 hinv).2.2
    5 rfl (by decide)

/-- Auxiliary for C2: the cipher returned by `get_cipher`, as a function of
the three gates alone (the cryptor map only decides whether a cipher is
reused or freshly created, never whether one is returned). -/
theorem get_cipher_fst_eq (st : CipherManagerState) (now generation : Nat) :
    (get_cipher st now generation).1
      = (if generation < (cleanup_expired_ciphers st now).oldestGeneration then none
         else if generation >
             ((cleanup_expired_ciphers st now).newestGeneration + MAX_GENERATION_GAP) % U32 then
           none
         else if generation >
             (MAX_FRAMES_PER_SECOND * (now - (cleanup_expired_ciphers st now).ratchetCreation))
               >>> RATCHET_GENERATION_SHIFT_BITS then
           none
         else some generation) := by
  simp only [get_cipher]
  split_ifs
  · rfl
  · rfl
  · rfl
  · cases h : (cleanup_expired_ciphers st now).cryptors.find? (fun c => c.1 == generation) <;>
      simp [h]

/-- C2: `get_cipher` returns a cipher exactly when the generation passes the
three gates, all evaluated on the state as it is at the moment of return
(i.e. after the initial expiry cleanup): not below `oldestGeneration`, at
most `newestGeneration + MAX_GENERATION_GAP`, and at most
`MAX_FRAMES_PER_SECOND * age_seconds / 2 ^ 24`.  The hypotheses say that the
32-bit sum `newestGeneration + MAX_GENERATION_GAP` does not wrap and that
the clock has not run backwards past the ratchet's creation. -/
theorem get_cipher_generation_gates (st : CipherManagerState) (now generation : Nat)
    (hgap : st.newestGeneration + MAX_GENERATION_GAP < U32)
    (_hclock : st.ratchetCreation ≤ now) :
    ((get_cipher st now generation).1.isSome = true ↔
      ((cleanup_expired_ciphers st now).oldestGeneration ≤ generation ∧
       generation ≤ st.newestGeneration + MAX_GENERATION_GAP ∧
       generation ≤ MAX_FRAMES_PER_SECOND * (now - st.ratchetCreation) / 2 ^ 24)) := by
  have hnew : (cleanup_expired_ciphers st now).newestGeneration = st.newestGeneration := rfl
  have hcr : (cleanup_expired_ciphers st now).ratchetCreation = st.ratchetCreation := rfl
  rw [get_cipher_fst_eq, hnew, hcr, Nat.mod_eq_of_lt hgap, Nat.shiftRight_eq_div_pow]
  have h24 : RATCHET_GENERATION_SHIFT_BITS = 24 := rfl
  rw [h24]
  set old := (cleanup_expired_ciphers st now).oldestGeneration with hold
  set gapBound := st.newestGeneration + MAX_GENERATION_GAP with hgapB
  set lifeBound := MAX_FRAMES_PER_SECOND * (now - st.ratchetCreation) / 2 ^ 24 with hlife
  split_ifs with ha hb hc <;> simp <;> omega

/-- C2 witness: a fresh manager (creation time 0) queried at time 5 for
generation 0 passes all three gates. -/
theorem get_cipher_generation_gates_witness :
    ((0 : Nat) + MAX_GENERATION_GAP < U32 ∧ (0 : Nat) ≤ 5) ∧
    ((get_cipher ⟨0, 0, 0, none, [], none, []⟩ 5 0).1.isSome = true ↔
      ((cleanup_expired_ciphers ⟨0, 0, 0, none, [], none, []⟩ 5).oldestGeneration ≤ 0 ∧
       0 ≤ (0 : Nat) + MAX_GENERATION_GAP ∧
       0 ≤ MAX_FRAMES_PER_SECOND * (5 - 0) / 2 ^ 24)) :=
  ⟨⟨by decide, by decide⟩,
   get_cipher_generation_gates ⟨0, 0, 0, none, [], none, []⟩ 5 0 (by decide) (by decide)⟩

/-- C5: passthrough window semantics.  `transition_to_passthrough(true, E)`
sets the deadline to the maximal time point; `transition_to_passthrough(false,
E)` clamps it to `min(previous, now + E)`.  A frame that parses as
not-encrypted (and is not the silence-packet shortcut) is copied verbatim
with its full size returned exactly when the entry time is strictly before
the deadline; otherwise nothing is written, 0 is returned, and the decrypt
failure counter of that media type is incremented. -/
theorem passthrough_window_semantics (st : DecryptorState) (now expiry : Nat)
    (mediaType : Nat) (frame : List Nat) (parsed : ParsedFrame) (aeadOk : Nat → Bool)
    (hmt : mediaType = 0 ∨ mediaType = 1)
    (hns : ¬(mediaType = 0 ∧ frame = kOpusSilencePacket))
    (hne : parsed.isEncrypted = false) :
    (TransitionToPassthroughMode st true now expiry).allowPassThroughUntil = none ∧
    (TransitionToPassthroughMode st false now expiry).allowPassThroughUntil
      = tpMin st.allowPassThroughUntil (some (now + expiry)) ∧
    (tpLT (some now) st.allowPassThroughUntil = true →
      (decrypt st mediaType frame parsed now aeadOk).1 = (frame.length, some frame)) ∧
    (tpLT (some now) st.allowPassThroughUntil = false →
      (decrypt st mediaType frame parsed now aeadOk).1 = (0, none) ∧
      ((decrypt st mediaType frame parsed now aeadOk).2.stats mediaType).decryptFailureCount
        = (st.stats mediaType).decryptFailureCount + 1) := by
  have h1 : ¬(mediaType ≠ 0 ∧ mediaType ≠ 1) := by
    rcases hmt with h | h <;> simp [h]
  refine ⟨rfl, rfl, fun hp => ?_, fun hp => ?_⟩
  · simp [decrypt, h1, hns, hne, hp]
  · refine ⟨?_, ?_⟩
    · simp [decrypt, h1, hns, hne, hp]
    · simp [decrypt, h1, hns, hne, hp, bumpStat]

/-- C5 witness: deadline 10, frame of three bytes, entry times 5 (inside the
window) and 12 (outside). -/
theorem passthrough_window_semantics_witness :
    (((0 : Nat) = 0 ∨ (0 : Nat) = 1) ∧
      ¬((0 : Nat) = 0 ∧ [1, 2, 3] = kOpusSilencePacket) ∧
      (ParsedFrame.mk false 0 []).isEncrypted = false) ∧
    (tpLT (some 5) (some 10) = true ∧
      (decrypt ⟨some 10, [], fun _ => ⟨0, 0, 0, 0⟩⟩ 0 [1, 2, 3] ⟨false, 0, []⟩ 5
        (fun _ => true)).1 = ([1, 2, 3].length, some [1, 2, 3])) ∧
    (tpLT (some 12) (some 10) = false ∧
      (decrypt ⟨some 10, [], fun _ => ⟨0, 0, 0, 0⟩⟩ 0 [1, 2, 3] ⟨false, 0, []⟩ 12
        (fun _ => true)).1 = (0, none)) :=
  ⟨⟨by decide, by decide, rfl⟩,
   ⟨by decide,
    (passthrough_window_semantics ⟨some 10, [], fun _ => ⟨0, 0, 0, 0⟩⟩ 5 7 0 [1, 2, 3]
      ⟨false, 0, []⟩ (fun _ => true) (by decide) (by decide) rfl).2.2.1 (by decide)⟩,
   ⟨by decide,
    ((passthrough_window_semantics ⟨some 10, [], fun _ => ⟨0, 0, 0, 0⟩⟩ 12 7 0 [1, 2, 3]
      ⟨false, 0, []⟩ (fun _ => true) (by decide) (by decide) rfl).2.2.2 (by decide)).1⟩⟩

/-- Auxiliary for C3: the generation/expiry half of `report_cipher_success`
never touches the nonce window. -/
theorem update_generation_expiry_nonce_fields (st : CipherManagerState) (now g : Nat) :
    (update_generation_expiry st now g).missingNonces = st.missingNonces ∧
    (update_generation_expiry st now g).newestProcessedNonce = st.newestProcessedNonce := by
  unfold update_generation_expiry
  split <;> exact ⟨rfl, rfl⟩

/-- Auxiliary for C3: the invariant only looks at the nonce-window fields. -/
theorem missing_nonce_invariant_of_eq (st1 st2 : CipherManagerState)
    (h1 : st2.newestProcessedNonce = st1.newestProcessedNonce)
    (h2 : st2.missingNonces = st1.missingNonces)
    (h : missing_nonce_invariant st1) : missing_nonce_invariant st2 := by
  unfold missing_nonce_invariant at *
  rw [h1, h2]
  exact h

/-- Auxiliary for C3: on a strictly increasing list, popping from the front
while the head is below a threshold removes exactly the elements below it. -/
theorem dropWhile_lt_eq_filter (l : List Nat) (t : Nat)
    (h : List.Pairwise (· < ·) l) :
    l.dropWhile (fun x => decide (x < t)) = l.filter (fun x => decide (t ≤ x)) := by
  induction l with
  | nil => rfl
  | cons a l ih =>
    rcases List.pairwise_cons.mp h with ⟨ha, hl⟩
    by_cases hat : a < t
    · rw [List.dropWhile_cons_of_pos (by simpa using hat),
        List.filter_cons_of_neg (by simpa using hat)]
      exact ih hl
    · rw [List.dropWhile_cons_of_neg (by simpa using hat),
        List.filter_cons_of_pos (by simpa using hat)]
      rw [List.filter_eq_self.mpr]
      intro x hx
      have := ha x hx
      simp only [decide_eq_true_eq]
      omega

/-- Auxiliary for C3: a strictly increasing list of naturals all lying in
`[a, b)` has at most `b - a` elements. -/
theorem length_le_of_pairwise_mem_Ico (l : List Nat) (a b : Nat)
    (hp : List.Pairwise (· < ·) l) (hb : ∀ x ∈ l, a ≤ x ∧ x < b) :
    l.length ≤ b - a := by
  have hnd : l.Nodup := hp.imp (fun h => Nat.ne_of_lt h)
  have hsub : l.toFinset ⊆ Finset.Ico a b := by
    intro x hx
    rcases hb x (List.mem_toFinset.mp hx) with ⟨h1, h2⟩
    exact Finset.mem_Ico.mpr ⟨h1, h2⟩
  calc l.length = l.toFinset.card := (List.toFinset_card_of_nodup hnd).symm
    _ ≤ (Finset.Ico a b).card := Finset.card_le_card hsub
    _ = b - a := Nat.card_Ico a b

/-- Auxiliary for C3: the first-ever nonce only records the new maximum. -/
theorem update_nonce_window_none (st : CipherManagerState) (big : Nat)
    (h : st.newestProcessedNonce = none) :
    update_nonce_window st big = { st with newestProcessedNonce := some big } := by
  simp [update_nonce_window, h]

/-- Auxiliary for C3: a new maximum BigNonce advances the window: entries
below `big - MAX_MISSING_NONCES` are pruned and exactly
`[max (big - MAX_MISSING_NONCES) (newest + 1), big)` is appended. -/
theorem update_nonce_window_advance (st : CipherManagerState) (big newest : Nat)
    (h : st.newestProcessedNonce = some newest) (hgt : newest < big)
    (hp : List.Pairwise (· < ·) st.missingNonces) :
    (update_nonce_window st big).newestProcessedNonce = some big ∧
    (update_nonce_window st big).missingNonces
      = st.missingNonces.filter (fun x => decide (big - MAX_MISSING_NONCES ≤ x))
        ++ List.range' (max (big - MAX_MISSING_NONCES) (newest + 1))
            (big - max (big - MAX_MISSING_NONCES) (newest + 1)) := by
  have hth : (if big > MAX_MISSING_NONCES then big - MAX_MISSING_NONCES else 0)
      = big - MAX_MISSING_NONCES := by
    split <;> omega
  refine ⟨by simp [update_nonce_window, h, hgt], ?_⟩
  simp only [update_nonce_window, h, if_pos hgt]
  rw [hth, dropWhile_lt_eq_filter _ _ hp]

/-- Auxiliary for C3: a BigNonce that is not a new maximum is erased from the
window (a no-op when absent) and the maximum is unchanged. -/
theorem update_nonce_window_replay (st : CipherManagerState) (big newest : Nat)
    (h : st.newestProcessedNonce = some newest) (hle : ¬ newest < big) :
    update_nonce_window st big
      = { st with missingNonces := st.missingNonces.erase big } := by
  simp [update_nonce_window, h, hle]

/-- Auxiliary for C3: `update_nonce_window` preserves the window invariant
and keeps the window within `MAX_MISSING_NONCES` entries. -/
theorem update_nonce_window_invariant (st : CipherManagerState) (big : Nat)
    (hinv : missing_nonce_invariant st) :
    missing_nonce_invariant (update_nonce_window st big) ∧
    (update_nonce_window st big).missingNonces.length ≤ MAX_MISSING_NONCES := by
  cases hnp : st.newestProcessedNonce with
  | none =>
    have hmiss : st.missingNonces = [] := by
      unfold missing_nonce_invariant at hinv
      rw [hnp] at hinv
      exact hinv
    rw [update_nonce_window_none st big hnp]
    constructor
    · unfold missing_nonce_invariant
      simp [hmiss]
    · simp [hmiss]
  | some newest =>
    have hinv' := hinv
    unfold missing_nonce_invariant at hinv'
    rw [hnp] at hinv'
    obtain ⟨hp, hbounds⟩ := hinv'
    by_cases hgt : newest < big
    · obtain ⟨h1, h2⟩ := update_nonce_window_advance st big newest hnp hgt hp
      have hbound' : ∀ x ∈ (update_nonce_window st big).missingNonces,
          big - MAX_MISSING_NONCES ≤ x ∧ x < big := by
        intro x hx
        rw [h2] at hx
        rcases List.mem_append.mp hx with hx | hx
        · rcases List.mem_filter.mp hx with ⟨hxm, hxp⟩
          have := (hbounds x hxm).2
          constructor
          · simpa using hxp
          · omega
        · rcases List.mem_range'_1.mp hx with ⟨hx1, hx2⟩
          constructor
          · exact le_trans (le_max_left _ _) hx1
          · have hmaxle : max (big - MAX_MISSING_NONCES) (newest + 1) ≤ big := by
              simp [Nat.max_le]
              omega
            omega
      have hp' : List.Pairwise (· < ·) (update_nonce_window st big).missingNonces := by
        rw [h2]
        refine List.pairwise_append.mpr ⟨?_, ?_, ?_⟩
        · exact hp.sublist (List.filter_sublist _)
        · exact List.pairwise_lt_range' _ _
        · intro x hx y hy
          rcases List.mem_filter.mp hx with ⟨hxm, _⟩
          have hxlt := (hbounds x hxm).2
          rcases List.mem_range'_1.mp hy with ⟨hy1, _⟩
          have : newest + 1 ≤ y := le_trans (le_max_right _ _) hy1
          omega
      constructor
      · unfold missing_nonce_invariant
        rw [h1]
        exact ⟨hp', hbound'⟩
      · have := length_le_of_pairwise_mem_Ico _ (big - MAX_MISSING_NONCES) big hp' hbound'
        have hmm : MAX_MISSING_NONCES = 50 := rfl
        omega
    · rw [update_nonce_window_replay st big newest hnp hgt]
      have hsub := List.erase_sublist big st.missingNonces
      have hp' : List.Pairwise (· < ·) (st.missingNonces.erase big) := hp.sublist hsub
      have hbound' : ∀ x ∈ st.missingNonces.erase big,
          newest - MAX_MISSING_NONCES ≤ x ∧ x < newest :=
        fun x hx => hbounds x (hsub.subset hx)
      constructor
      · unfold missing_nonce_invariant
        simp only [hnp]
        exact ⟨hp', hbound'⟩
      · have := length_le_of_pairwise_mem_Ico _ (newest - MAX_MISSING_NONCES) newest hp' hbound'
        have hmm : MAX_MISSING_NONCES = 50 := rfl
        show (st.missingNonces.erase big).length ≤ MAX_MISSING_NONCES
        omega

/-- C3: the missing-nonce window maintenance of `report_cipher_success`.
When the BigNonce is a new maximum, `newestProcessedNonce` advances to it,
entries below `big - MAX_MISSING_NONCES` are pruned and exactly the
BigNonces from `max (big - MAX_MISSING_NONCES) (newest + 1)` up to `big - 1`
are appended; otherwise the BigNonce is removed from the window if present.
In every case the window invariant is preserved — each entry lies in
`[newest - MAX_MISSING_NONCES, newest)` — so the window never exceeds
`MAX_MISSING_NONCES` entries, and pruning discards only the oldest
entries. -/
theorem report_cipher_success_missing_window (st : CipherManagerState)
    (now g n : Nat) (hinv : missing_nonce_invariant st) :
    (st.newestProcessedNonce = none →
      (report_cipher_success st now g n).newestProcessedNonce
          = some (compute_wrapped_big_nonce g n) ∧
      (report_cipher_success st now g n).missingNonces = st.missingNonces) ∧
    (∀ newest, st.newestProcessedNonce = some newest →
      newest < compute_wrapped_big_nonce g n →
      (report_cipher_success st now g n).newestProcessedNonce
          = some (compute_wrapped_big_nonce g n) ∧
      (report_cipher_success st now g n).missingNonces
        = st.missingNonces.filter
            (fun x => decide (compute_wrapped_big_nonce g n - MAX_MISSING_NONCES ≤ x))
          ++ List.range'
              (max (compute_wrapped_big_nonce g n - MAX_MISSING_NONCES) (newest + 1))
              (compute_wrapped_big_nonce g n
                - max (compute_wrapped_big_nonce g n - MAX_MISSING_NONCES) (newest + 1))) ∧
    (∀ newest, st.newestProcessedNonce = some newest →
      ¬ newest < compute_wrapped_big_nonce g n →
      (report_cipher_success st now g n).newestProcessedNonce = some newest ∧
      (report_cipher_success st now g n).missingNonces
        = st.missingNonces.erase (compute_wrapped_big_nonce g n)) ∧
    missing_nonce_invariant (report_cipher_success st now g n) ∧
    (report_cipher_success st now g n).missingNonces.length ≤ MAX_MISSING_NONCES := by
  obtain ⟨hm, hnp⟩ :=
    update_generation_expiry_nonce_fields
      (update_nonce_window st (compute_wrapped_big_nonce g n)) now g
  have hrep : report_cipher_success st now g n
      = update_generation_expiry
          (update_nonce_window st (compute_wrapped_big_nonce g n)) now g := rfl
  obtain ⟨hwi, hwl⟩ := update_nonce_window_invariant st (compute_wrapped_big_nonce g n) hinv
  refine ⟨fun h0 => ?_, fun newest h hgt => ?_, fun newest h hle => ?_, ?_, ?_⟩
  · rw [hrep, hnp, hm, update_nonce_window_none st _ h0]
    exact ⟨rfl, rfl⟩
  · have hpair : List.Pairwise (· < ·) st.missingNonces := by
      unfold missing_nonce_invariant at hinv
      rw [h] at hinv
      exact hinv.1
    obtain ⟨h1, h2⟩ := update_nonce_window_advance st _ newest h hgt hpair
    rw [hrep, hnp, hm]
    exact ⟨h1, h2⟩
  · rw [hrep, hnp, hm, update_nonce_window_replay st _ newest h hle]
    exact ⟨h, rfl⟩
  · rw [hrep]
    exact missing_nonce_invariant_of_eq _ _ hnp hm hwi
  · rw [hrep, hm]
    exact hwl

/-- C3 witness: newest processed BigNonce 10 with window `[8, 9]`; the nonce
`(0, 13)` (BigNonce 13) is a new maximum, prunes nothing and appends 11 and
12. -/
theorem report_cipher_success_missing_window_witness :
    (missing_nonce_invariant ⟨0, 0, 0, none, [], some 10, [8, 9]⟩ ∧
      (10 : Nat) < compute_wrapped_big_nonce 0 13) ∧
    (report_cipher_success ⟨0, 0, 0, none, [], some 10, [8, 9]⟩ 3 0 13).newestProcessedNonce
        = some (compute_wrapped_big_nonce 0 13) ∧
    (report_cipher_success ⟨0, 0, 0, none, [], some 10, [8, 9]⟩ 3 0 13).missingNonces
      = [8, 9].filter
          (fun x => decide (compute_wrapped_big_nonce 0 13 - MAX_MISSING_NONCES ≤ x))
        ++ List.range' (max (compute_wrapped_big_nonce 0 13 - MAX_MISSING_NONCES) (10 + 1))
            (compute_wrapped_big_nonce 0 13
              - max (compute_wrapped_big_nonce 0 13 - MAX_MISSING_NONCES) (10 + 1)) := by
  have hinv : missing_nonce_invariant ⟨0, 0, 0, none, [], some 10, [8, 9]⟩ := by
    unfold missing_nonce_invariant
    have hmm : MAX_MISSING_NONCES = 50 := rfl
    refine ⟨by simp, ?_⟩
    intro x hx
    simp only [List.mem_cons, List.not_mem_nil, or_false] at hx
    rcases hx with rfl | rfl <;> omega
  refine ⟨⟨hinv, by decide⟩, ?_⟩
  exact (report_cipher_success_missing_window ⟨0, 0, 0, none, [], some 10, [8, 9]⟩
    3 0 13 hinv).2.1 10 rfl (by decide)

/-- Auxiliary for C6: the ASCII characters of decimal digits are digits. -/
theorem decChar_isDigit (d : Nat) (h : d < 10) : (decChar d).isDigit = true := by
  interval_cases d <;> decide

/-- Auxiliary for C6: `decimalCharsAux` produces only digit characters. -/
theorem decimalCharsAux_isDigit (fuel : Nat) :
    ∀ n, ∀ c ∈ decimalCharsAux fuel n, c.isDigit = true := by
  induction fuel with
  | zero =>
    intro n c hc
    simp [decimalCharsAux] at hc
  | succ fuel ih =>
    intro n c hc
    simp only [decimalCharsAux] at hc
    by_cases h : n < 10
    · rw [if_pos h, List.mem_singleton] at hc
      subst hc
      exact decChar_isDigit n h
    · rw [if_neg h] at hc
      rcases List.mem_append.mp hc with h1 | h1
      · exact ih _ c h1
      · rw [List.mem_singleton] at h1
        subst h1
        exact decChar_isDigit _ (Nat.mod_lt _ (by omega))

/-- Auxiliary for C6: `decimalChars` produces only digit characters. -/
theorem decimalChars_isDigit (n : Nat) : ∀ c ∈ decimalChars n, c.isDigit = true :=
  decimalCharsAux_isDigit (n + 1) n

/-- Auxiliary for C6: a value below `10 ^ k` has at most `k` decimal
digits, regardless of fuel. -/
theorem decimalCharsAux_length_le (fuel : Nat) :
    ∀ n k, n < 10 ^ k → 1 ≤ k → (decimalCharsAux fuel n).length ≤ k := by
  induction fuel with
  | zero =>
    intro n k _ _
    simp [decimalCharsAux]
  | succ fuel ih =>
    intro n k h h1
    by_cases hn : n < 10
    · simpa [decimalCharsAux, hn] using h1
    · have hk2 : 2 ≤ k := by
        by_contra hlt
        have hk1' : k = 1 := by omega
        subst hk1'
        norm_num at h
        omega
      have hdiv : n / 10 < 10 ^ (k - 1) := by
        have hk : k = (k - 1) + 1 := by omega
        rw [hk, pow_succ'] at h
        exact Nat.div_lt_of_lt_mul h
      have := ih (n / 10) (k - 1) hdiv (by omega)
      simp only [decimalCharsAux, if_neg hn, List.length_append, List.length_singleton]
      omega

/-- Auxiliary for C6: a value below `10 ^ k` has at most `k` decimal
digits. -/
theorem decimalChars_length_le (k n : Nat) (h : n < 10 ^ k) (h1 : 1 ≤ k) :
    (decimalChars n).length ≤ k :=
  decimalCharsAux_length_le (n + 1) n k h h1

/-- Auxiliary for C6: zero-padding a short digit list yields exactly the
target width. -/
theorem zeroPad_length (w : Nat) (s : List Char) (h : s.length ≤ w) :
    (zeroPad w s).length = w := by
  simp [zeroPad]
  omega

/-- Auxiliary for C6: zero-padding preserves digit-only content. -/
theorem zeroPad_isDigit (w : Nat) (s : List Char)
    (hs : ∀ c ∈ s, c.isDigit = true) : ∀ c ∈ zeroPad w s, c.isDigit = true := by
  intro c hc
  rcases List.mem_append.mp hc with h | h
  · rw [List.eq_of_mem_replicate h]
    decide
  · exact hs c h

/-- Auxiliary for C6: `(a << 8) | b` is the big-endian accumulation step for
a byte `b`. -/
theorem shift_or_eq_mul_add (a b : Nat) (hb : b < 256) :
    (a <<< 8) ||| b = a * 256 + b := by
  have h : (a <<< 8) ||| b = a * 2 ^ 8 + b := by
    rw [Nat.shiftLeft_eq, Nat.mul_comm a (2 ^ 8)]
    exact (Nat.mul_add_lt_is_or (by simpa using hb) a).symm
  simpa using h

/-- Auxiliary for C6: the byte loop of `generate_displayable_code` computes
the big-endian value of the `k` bytes starting at `i`, and never throws when
they exist. -/
theorem accumulate_group_eq (data : List Nat) (hb : ∀ b ∈ data, b < 256) :
    ∀ k i acc, i + k ≤ data.length →
      accumulate_group data i k acc
        = some (((data.drop i).take k).foldl (fun a b => a * 256 + b) acc) := by
  intro k
  induction k with
  | zero =>
    intro i acc _
    simp [accumulate_group]
  | succ k ih =>
    intro i acc h
    have hi : i < data.length := by omega
    have hget : data[i]? = some data[i] := List.getElem?_eq_getElem hi
    have hdrop : data.drop i = data[i] :: data.drop (i + 1) := List.drop_eq_getElem_cons hi
    have hbyte : data[i] < 256 := hb _ (List.getElem_mem hi)
    rw [hdrop]
    simp only [accumulate_group, hget, List.take_succ_cons, List.foldl_cons]
    rw [ih (i + 1) _ (by omega), shift_or_eq_mul_add acc _ hbyte]

/-- Auxiliary for C6: `mapM` over `Option` succeeds pointwise. -/
theorem mapM_eq_map_of_some {α β : Type} (f : α → Option β) (g : α → β) (l : List α)
    (h : ∀ x ∈ l, f x = some (g x)) : l.mapM f = some (l.map g) := by
  induction l with
  | nil => rfl
  | cons a l ih =>
    rw [List.mapM_cons, h a (List.mem_cons_self a l),
      ih (fun x hx => h x (List.mem_cons_of_mem a hx))]
    rfl

/-- Auxiliary for C6: with enough bytes, `generate_displayable_code` emits
exactly the spec-side groups, each followed by a space. -/
theorem generate_displayable_code_eq (data : List Nat) (desired numGroups : Nat)
    (hb : ∀ b ∈ data, b < 256) (hlen : 5 * numGroups ≤ data.length)
    (hgroups : (desired + 5 - 1) / 5 = numGroups) :
    generate_displayable_code data desired 5
      = some (String.mk (((privacy_code_spec data numGroups).map (· ++ [' '])).flatten)) := by
  have hmap : ∀ g ∈ List.range numGroups,
      ((accumulate_group data (g * 5) 5 0).map
        (fun v => zeroPad 5 (decimalChars (v % 10 ^ 5)) ++ [' ']))
      = some ((fun g => zeroPad 5 (decimalChars
          (be_bytes_value ((data.drop (5 * g)).take 5) % 10 ^ 5)) ++ [' ']) g) := by
    intro g hg
    rw [List.mem_range] at hg
    rw [accumulate_group_eq data hb 5 (g * 5) 0 (by omega), Nat.mul_comm g 5]
    rfl
  simp only [generate_displayable_code]
  rw [hgroups, mapM_eq_map_of_some _
    (fun g => zeroPad 5 (decimalChars
      (be_bytes_value ((data.drop (5 * g)).take 5) % 10 ^ 5)) ++ [' ']) _ hmap]
  simp only [Option.map_some']
  congr 1
  unfold privacy_code_spec
  rw [List.map_map]
  rfl

/-- Auxiliary for C6: every spec-side group is a 5-character digit-only
block, and there are exactly `n` of them. -/
theorem privacy_code_spec_groups (data : List Nat) (n : Nat) :
    (privacy_code_spec data n).length = n ∧
    ∀ grp ∈ privacy_code_spec data n, grp.length = 5 ∧ ∀ c ∈ grp, c.isDigit = true := by
  refine ⟨by simp [privacy_code_spec], ?_⟩
  intro grp hg
  simp only [privacy_code_spec, List.mem_map, List.mem_range] at hg
  obtain ⟨g, _, rfl⟩ := hg
  have hmod : be_bytes_value ((data.drop (5 * g)).take 5) % 10 ^ 5 < 10 ^ 5 :=
    Nat.mod_lt _ (by norm_num)
  constructor
  · exact zeroPad_length 5 _ (decimalChars_length_le 5 _ hmod (by omega))
  · exact zeroPad_isDigit 5 _ (decimalChars_isDigit _)

/-- C6: privacy-code derivation.  For a pairwise fingerprint of exactly 64
bytes, `get_user_privacy_code` produces the code built from 9 consecutive
5-byte groups — each interpreted as a big-endian integer mod `10 ^ 5` and
printed as a zero-padded 5-digit decimal block followed by a space — i.e. 45
digits in 9 groups; any other fingerprint length yields the empty string.
The session code uses `desired_length = 30`: 6 groups, 30 digits.  The code
is a pure function of the authenticator bytes, so identical bytes always
yield the identical code. -/
theorem privacy_code_derivation (data : List Nat) (hb : ∀ b ∈ data, b < 256) :
    (data.length = 64 →
      get_user_privacy_code_result data
        = String.mk (((privacy_code_spec data 9).map (· ++ [' '])).flatten) ∧
      (privacy_code_spec data 9).length = 9 ∧
      ∀ grp ∈ privacy_code_spec data 9, grp.length = 5 ∧ ∀ c ∈ grp, c.isDigit = true) ∧
    (data.length ≠ 64 → get_user_privacy_code_result data = "") ∧
    (30 ≤ data.length →
      generate_displayable_code data 30 5
        = some (String.mk (((privacy_code_spec data 6).map (· ++ [' '])).flatten))) := by
  obtain ⟨hglen, hgprops⟩ := privacy_code_spec_groups data 9
  refine ⟨fun h64 => ?_, fun hne => ?_, fun h30 => ?_⟩
  · have hgen := generate_displayable_code_eq data 45 9 hb (by omega) (by norm_num)
    refine ⟨?_, hglen, hgprops⟩
    unfold get_user_privacy_code_result
    rw [if_pos h64]
    show (generate_displayable_code data 45 5).getD "" = _
    rw [hgen]
    rfl
  · unfold get_user_privacy_code_result
    rw [if_neg hne]
  · exact generate_displayable_code_eq data 30 6 hb (by omega) (by norm_num)

/-- C6 witness: the all-zero 64-byte fingerprint yields nine groups of
`00000`. -/
theorem privacy_code_derivation_witness :
    (∀ b ∈ List.replicate 64 0, b < 256) ∧
    (List.replicate (64 : Nat) 0).length = 64 ∧
    get_user_privacy_code_result (List.replicate 64 0)
      = String.mk (((privacy_code_spec (List.replicate 64 0) 9).map (· ++ [' '])).flatten) ∧
    get_user_privacy_code_result (List.replicate 64 0)
      = "00000 00000 00000 00000 00000 00000 00000 00000 00000 " := by
  have hb : ∀ b ∈ List.replicate (64 : Nat) 0, b < 256 := by
    intro b hbm
    rw [List.eq_of_mem_replicate hbm]
    omega
  refine ⟨hb, by simp, ((privacy_code_derivation _ hb).1 (by simp)).1, by decide⟩

end dpp
